import Mathlib

/-!
Verification development for the TRF (VidStab transform file) analysis tools
(`trf_parser.py`, `trf_binary_parser.py`).

The Python sources are shallowly embedded here:
* byte buffers are modelled as a length together with a byte-valued function
  (`ByteBuf`); reads are `buf.byte i % 256`, matching `data[i]` on `bytes`;
* IEEE-754 binary32 values produced by `struct.unpack('<f', ...)` are decoded
  exactly into `F32`: either NaN, a signed infinity, or a finite value given as
  an exact rational (every finite float32 is a rational, so the decoding and
  all magnitude comparisons below are exact);
* Python `int` arithmetic (`//`, `%`) is `Int.fdiv` / `Int.fmod` (floor
  division, remainder with the sign of the divisor), which agree with Python
  on every input;
* the check `math.sqrt(s / n) < 1000` on a nonnegative float is embedded as
  the exact equivalent `s / n < 1000 ^ 2` (square-root monotonicity).
-/

namespace TRF

/-- A decoded 32-bit float: NaN, a signed infinity, or an exact finite
rational value. -/
inductive F32 where
  | nan : F32
  | inf (neg : Bool) : F32
  | finite (q : ℚ) : F32
  deriving DecidableEq, Repr

/-- A read-only byte buffer: `size` is the length, `byte i` the `i`-th byte
(reduced mod 256 on every read, so the model never sees a non-byte value). -/
structure ByteBuf where
  size : ℕ
  byte : ℕ → ℕ

/-- Read one byte at an integer offset (offsets in the sources are always
nonnegative where reads occur). -/
def byteAt (buf : ByteBuf) (i : ℤ) : ℕ :=
  buf.byte i.toNat % 256

/-- Little-endian unsigned 32-bit read at offset `off`, as done by
`struct.unpack('<I', data[off:off+4])` and as the bit pattern for
`struct.unpack('<f', ...)`. -/
def leU32 (buf : ByteBuf) (off : ℤ) : ℕ :=
  byteAt buf off + 256 * byteAt buf (off + 1) + 65536 * byteAt buf (off + 2)
    + 16777216 * byteAt buf (off + 3)

/-- Exact IEEE-754 binary32 decoding of a 32-bit pattern.
Normal values are `(2^23 + m) * 2^(e - 150)`, subnormals `m * 2^(-149)`. -/
def decodeF32 (bits : ℕ) : F32 :=
  let sign : ℕ := bits / 2 ^ 31 % 2
  let e : ℕ := bits / 2 ^ 23 % 256
  let m : ℕ := bits % 2 ^ 23
  if e = 255 then
    if m = 0 then F32.inf (sign = 1) else F32.nan
  else
    let mag : ℚ :=
      if e = 0 then (m : ℚ) / ((2 ^ 149 : ℕ) : ℚ)
      else (((2 ^ 23 + m) * 2 ^ e : ℕ) : ℚ) / ((2 ^ 150 : ℕ) : ℚ)
    F32.finite (if sign = 1 then -mag else mag)

/-- `math.isnan(v) or abs(v) > 10000` — the per-record sample validation test
(comparisons against NaN are false in Python, so NaN fails via `isnan` and an
infinity fails via `abs(v) > 10000`). -/
def F32.isBad : F32 → Bool
  | F32.nan => true
  | F32.inf _ => true
  | F32.finite q => decide (10000 < |q|)

/-- `not math.isnan(v) and abs(v) < 10000` — the strict validity test used to
build the valid subset for metrics. -/
def F32.isValid : F32 → Bool
  | F32.nan => false
  | F32.inf _ => false
  | F32.finite q => decide (|q| < 10000)

/-- Numeric value of a decoded float; only ever applied to values that passed
a finiteness check, the default 0 for NaN/inf is never reached there. -/
def F32.toRat : F32 → ℚ
  | F32.finite q => q
  | _ => 0

/-- `struct.unpack(f'<{nf}f', data[off:off+nf*4])`: `nf` consecutive
little-endian float32 values starting at byte offset `off`. -/
def recordAt (buf : ByteBuf) (off : ℤ) (nf : ℕ) : List F32 :=
  (List.range nf).map fun j => decodeF32 (leU32 buf (off + 4 * j))

/-! ## Layout Search Engine (`analyze_trf_file`, `trf_parser.py` 218-303) -/

/-- `possible_sizes = [24, 32, 48, 52, 64, 96, 128, 256, 512, 1024, 2048,
2752, 2756, 2760]`. -/
def possible_sizes : List ℤ :=
  [24, 32, 48, 52, 64, 96, 128, 256, 512, 1024, 2048, 2752, 2756, 2760]

/-- `header_sizes = [16, 20, 24, 32, 64, 128, 256]`. -/
def header_sizes : List ℤ := [16, 20, 24, 32, 64, 128, 256]

/-- `expected_frames = 16514` (hard-coded in the source, marked FIXME). -/
def expected_frames : ℤ := 16514

/-- The feasibility test on a candidate pair:
`data_size % record_size == 0` and `100 < frame_count < 1000000` with
`data_size = file_size - header_size`, `frame_count = data_size // record_size`
(Python floor division / remainder, hence `Int.fdiv` / `Int.fmod`). -/
def feasible (fileSize header_size record_size : ℤ) : Bool :=
  let data_size := fileSize - header_size
  data_size.fmod record_size = 0 &&
    (100 < data_size.fdiv record_size && data_size.fdiv record_size < 1000000)

/-- The sample-validation loop over `i in range(num_test_frames)`: break with
`valid = False` (here `none`) when `offset + record_size > len(data)` or when
any of the first 3 decoded floats is NaN or has magnitude > 10000; otherwise
collect `values[:3]` per sampled record.  `i` is the next frame index, the
second argument the number of iterations left. -/
def sampleLoop (buf : ByteBuf) (header_size record_size : ℤ) :
    ℕ → ℕ → Option (List (List F32))
  | _, 0 => some []
  | i, k + 1 =>
    let offset := header_size + i * record_size
    if (buf.size : ℤ) < offset + record_size then none
    else
      let num_floats := min (record_size.toNat / 4) 16
      let values := recordAt buf offset num_floats
      if (values.take 3).any F32.isBad then none
      else (sampleLoop buf header_size record_size (i + 1) k).map ((values.take 3) :: ·)

/-- The sampled test transforms of a candidate: `num_test_frames =
min(20, frame_count)` records, or `none` when validation failed. -/
def sampleOf (buf : ByteBuf) (header_size record_size frame_count : ℤ) :
    Option (List (List F32)) :=
  sampleLoop buf header_size record_size 0 (min 20 frame_count).toNat

/-- `sum(t[0] ** 2 for t in ts) / len(ts)` — the square of the sampled dx RMS.
The source compares `math.sqrt` of this against 1000; we compare the square
against `1000 ^ 2`, which is equivalent. -/
def dxRmsSqOf (ts : List (List F32)) : ℚ :=
  (ts.map fun t => (t.getD 0 (F32.finite 0)).toRat ^ 2).sum / ts.length

/-- `sum(t[1] ** 2 for t in ts) / len(ts)` — the square of the sampled dy RMS. -/
def dyRmsSqOf (ts : List (List F32)) : ℚ :=
  (ts.map fun t => (t.getD 1 (F32.finite 0)).toRat ^ 2).sum / ts.length

/-- A feasible candidate is accepted (`best_config` is assigned) iff the
sample loop survived with a nonempty sample (`if valid and test_transforms`)
and `dx_rms < 1000 and dy_rms < 1000`. -/
def acceptCandidate (buf : ByteBuf) (header_size record_size frame_count : ℤ) : Bool :=
  match sampleOf buf header_size record_size frame_count with
  | none => false
  | some ts =>
    !ts.isEmpty && (decide (dxRmsSqOf ts < 1000 ^ 2) && decide (dyRmsSqOf ts < 1000 ^ 2))

/-- A chosen layout: the `best_config = (header_size, record_size, frame_count)`
triple of the source. -/
structure Config where
  header_size : ℤ
  record_size : ℤ
  frame_count : ℤ
  deriving DecidableEq, Repr

/-- `abs(frame_count - expected_frames) < 10` — the "EXCELLENT match"
early-exit test. -/
def isExcellent (c : Config) : Bool := |c.frame_count - expected_frames| < 10

/-- The inner loop `for record_size in possible_sizes`: skip infeasible pairs,
overwrite `best_config` on each accepted candidate, and `break` right after an
accepted candidate with `diff_frames < 10`. -/
def searchInner (buf : ByteBuf) (header_size : ℤ) :
    List ℤ → Option Config → Option Config
  | [], best => best
  | record_size :: rs, best =>
    if feasible buf.size header_size record_size then
      if acceptCandidate buf header_size record_size
          (((buf.size : ℤ) - header_size).fdiv record_size) then
        if isExcellent ⟨header_size, record_size,
            ((buf.size : ℤ) - header_size).fdiv record_size⟩ then
          some ⟨header_size, record_size,
            ((buf.size : ℤ) - header_size).fdiv record_size⟩
        else
          searchInner buf header_size rs (some ⟨header_size, record_size,
            ((buf.size : ℤ) - header_size).fdiv record_size⟩)
      else searchInner buf header_size rs best
    else searchInner buf header_size rs best

/-- The outer loop `for header_size in header_sizes`, with the
`if best_config and abs(best_config[2] - expected_frames) < 10: break` check
after each inner loop. -/
def searchOuter (buf : ByteBuf) : List ℤ → Option Config → Option Config
  | [], best => best
  | header_size :: hs, best =>
    let best' := searchInner buf header_size possible_sizes best
    match best' with
    | some c => if isExcellent c then some c else searchOuter buf hs (some c)
    | none => searchOuter buf hs none

/-- The layout selected by the search engine (the final value of
`best_config`). -/
def best_config (buf : ByteBuf) : Option Config :=
  searchOuter buf header_sizes none

/-! ## Bulk Decoder (`trf_parser.py` 325-363) and fallback
(`analyze_trf_data`, both source files) -/

/-- Shared shape of both decode loops: `count` remaining iterations starting
at frame index `i`; each iteration reads a record of `nf` floats at
`start + i * rsize` and breaks (yielding the partial list) the moment
`offset + rsize > len(data)`.  The `struct.unpack` calls cannot fail here:
the bounds check guarantees the slice is full-width for every record size the
callers use (≥ 24 bytes ≥ the unpacked width), so no exception branch is
modelled. -/
def decodeRecords (buf : ByteBuf) (start rsize : ℤ) (nf : ℕ) :
    ℕ → ℕ → List (List F32)
  | _, 0 => []
  | i, k + 1 =>
    if (buf.size : ℤ) < start + i * rsize + rsize then []
    else
      recordAt buf (start + i * rsize) nf ::
        decodeRecords buf start rsize nf (i + 1) k

/-- The bulk decode of the selected layout: `max_frames_to_parse =
min(frame_count, 100000)` iterations, each unpacking `'<3f'` at
`header_size + i * record_size`. -/
def bulkDecode (buf : ByteBuf) (header_size record_size frame_count : ℤ) :
    List (List F32) :=
  decodeRecords buf header_size record_size 3 0 (min frame_count 100000).toNat

/-- The decoded header fields (`version`, `frame_count`, `data_size` are the
three little-endian u32 values after the magic).  The
`{'magic', 'estimated_frames'}` fallback branch of the source is dead code:
`struct.unpack` on a 4-byte slice of a ≥ 20-byte buffer cannot raise. -/
structure HeaderInfo where
  version : ℕ
  frame_count : ℕ
  data_size : ℕ
  deriving DecidableEq, Repr

/-- `data[:4] == b'TRF1'` — the magic test.  (The source decodes with
`errors='ignore'` and compares to the string `'TRF1'`; dropping non-ASCII
bytes can only shorten the 4-character string, so the comparison succeeds
exactly when the four bytes are `T`,`R`,`F`,`1`.) -/
def magicOk (buf : ByteBuf) : Bool :=
  byteAt buf 0 = 84 && byteAt buf 1 = 82 && byteAt buf 2 = 70 && byteAt buf 3 = 49

/-- `parse_trf_header` (identical in both source files): `None` when
`len(data) < 20` or the magic mismatches, else the three u32 fields from
bytes 4..16. -/
def parse_trf_header (buf : ByteBuf) : Option HeaderInfo :=
  if buf.size < 20 then none
  else if magicOk buf then
    some ⟨leU32 buf 4, leU32 buf 8, leU32 buf 12⟩
  else none

/-- `analyze_trf_data` (identical in both source files): the fixed-default
fallback decode — header region 20 bytes, 24-byte records of 6 floats, keep
`values[:3]`.  `frame_count` comes from the parsed header when present,
otherwise `(len(data) - 20) // 24`.  The inner `except` branches are dead:
the bounds check keeps every unpack in range. -/
def analyze_trf_data (buf : ByteBuf) (header : Option HeaderInfo) :
    List (List F32) :=
  let frame_count : ℕ :=
    match header with
    | some h => h.frame_count
    | none => (((buf.size : ℤ) - 20).fdiv 24).toNat
  (decodeRecords buf 20 24 6 0 frame_count).map (·.take 3)

/-- The valid-subset filter (`trf_parser.py` 392-395): keep transforms with
`len(t) >= 3` whose first three fields are all finite with magnitude < 10000. -/
def valid_transforms (ts : List (List F32)) : List (List F32) :=
  ts.filter fun t => 3 ≤ t.length && (t.take 3).all F32.isValid

/-! ## Metrics record and Comparator (`compare_trf_files`, both files) -/

/-- The slice of the `StabilityMetrics` dictionary the comparator reads.
Instability indices are nonnegative reals (sums of RMS values) in the source;
the comparator's control flow is field-agnostic, and the model carries them
as exact rationals. -/
structure StabilityMetrics where
  frame_count : ℕ
  instability_index : ℚ
  deriving DecidableEq, Repr

/-- Which of the two input files a comparison names as `better`. -/
inductive WhichFile where
  | file1 : WhichFile
  | file2 : WhichFile
  deriving DecidableEq, Repr

/-- Observable outcome of `compare_trf_files`:
* `incomparable` — at least one input failed to analyze (`if metrics1 and
  metrics2` is false; nothing is compared);
* `halted winner diff` — the winner and difference were computed and reported,
  then `diff / max(...)` raised `ZeroDivisionError` (Python raises on float
  division by zero);
* `report winner diff pct` — the full comparison. -/
inductive CompareResult where
  | incomparable : CompareResult
  | halted (winner : WhichFile) (diff : ℚ) : CompareResult
  | report (winner : WhichFile) (diff : ℚ) (pct : ℚ) : CompareResult
  deriving DecidableEq, Repr

/-- The `if metrics1['instability_index'] < metrics2['instability_index']`
branch: which file is `better` and the (nonnegative) `diff`. -/
def betterAndDiff (a b : StabilityMetrics) : WhichFile × ℚ :=
  if a.instability_index < b.instability_index then
    (WhichFile.file1, b.instability_index - a.instability_index)
  else
    (WhichFile.file2, a.instability_index - b.instability_index)

/-- `compare_trf_files`, given the two analysis results. -/
def compare_trf_files (m1 m2 : Option StabilityMetrics) : CompareResult :=
  match m1, m2 with
  | some a, some b =>
    if max a.instability_index b.instability_index = 0 then
      CompareResult.halted (betterAndDiff a b).1 (betterAndDiff a b).2
    else
      CompareResult.report (betterAndDiff a b).1 (betterAndDiff a b).2
        ((betterAndDiff a b).2 / max a.instability_index b.instability_index * 100)
  | _, _ => CompareResult.incomparable

/-- The winner and difference a comparison reported, if it got that far. -/
def CompareResult.winnerDiff : CompareResult → Option (WhichFile × ℚ)
  | CompareResult.incomparable => none
  | CompareResult.halted w d => some (w, d)
  | CompareResult.report w d _ => some (w, d)

/-- Whether a comparison completed with the full report. -/
def CompareResult.isReport : CompareResult → Bool
  | CompareResult.report _ _ _ => true
  | _ => false

/-! ## Claim C7 — Header Probe contract -/

/-- A 16-byte buffer that begins with the `TRF1` magic. -/
def bufC7 : ByteBuf :=
  ⟨16, fun i => if i = 0 then 84 else if i = 1 then 82 else if i = 2 then 70
    else if i = 3 then 49 else 0⟩

/-- Counterexample to C7: the probe rejects buffers shorter than 20 bytes, not
16 — a 16-byte buffer with a valid magic yields `None` although the claim
requires a decoded header. -/
theorem C7_counterexample :
    bufC7.size = 16 ∧ magicOk bufC7 = true ∧ parse_trf_header bufC7 = none :=
  ⟨rfl, by decide, by decide⟩

/-- C7 amended: the probe returns `None` iff the buffer is shorter than **20**
bytes or the magic mismatches; on a buffer of length ≥ 20 whose first four
bytes are the magic it returns the three little-endian u32 fields decoded
from bytes 4..16. -/
theorem C7_amended (buf : ByteBuf) :
    (parse_trf_header buf = none ↔ buf.size < 20 ∨ magicOk buf = false) ∧
    (20 ≤ buf.size → magicOk buf = true →
      parse_trf_header buf = some ⟨leU32 buf 4, leU32 buf 8, leU32 buf 12⟩) := by
  unfold parse_trf_header
  constructor
  · split
    · simp_all
    · split <;> simp_all
  · intro h1 h2
    rw [if_neg (by omega), h2]
    simp

/-- Witness for C7_amended at a concrete 20-byte buffer with valid magic. -/
theorem C7_witness :
    20 ≤ (ByteBuf.mk 20 fun i => if i = 0 then 84 else if i = 1 then 82
        else if i = 2 then 70 else if i = 3 then 49 else 7).size ∧
    magicOk (ByteBuf.mk 20 fun i => if i = 0 then 84 else if i = 1 then 82
        else if i = 2 then 70 else if i = 3 then 49 else 7) = true ∧
    parse_trf_header (ByteBuf.mk 20 fun i => if i = 0 then 84 else if i = 1 then 82
        else if i = 2 then 70 else if i = 3 then 49 else 7) =
      some ⟨117901063, 117901063, 117901063⟩ := by
  refine ⟨by decide, by decide, ?_⟩
  have h := (C7_amended (ByteBuf.mk 20 fun i => if i = 0 then 84 else if i = 1 then 82
      else if i = 2 then 70 else if i = 3 then 49 else 7)).2 (by decide) (by decide)
  rw [h]
  decide

/-! ## Claims C8 and C10 — Comparator -/

/-- Counterexample to C8: two present metrics with equal zero instability
indices (reachable: a file of all-zero transforms has `dx_rms = dy_rms =
da_rms = 0`) make `improvement_pct` divide by zero, so the comparison raises
instead of completing. -/
theorem C8_counterexample :
    compare_trf_files (some ⟨5, 0⟩) (some ⟨5, 0⟩) =
      CompareResult.halted WhichFile.file2 0 ∧
    (compare_trf_files (some ⟨5, 0⟩) (some ⟨5, 0⟩)).isReport = false := by
  constructor <;> with_unfolding_all rfl

/-- C8 amended: for present metrics with `max(index_a, index_b) ≠ 0` the
comparator completes and reports the lower-index input as winner (ties go to
the second input), `absolute_difference = |index_a - index_b|` and
`relative_improvement_pct = 100 * absolute_difference / max(index_a,
index_b)`; when both indices are zero it halts with a division error after
reporting winner and difference. -/
theorem C8_amended (a b : StabilityMetrics)
    (h : max a.instability_index b.instability_index ≠ 0) :
    compare_trf_files (some a) (some b) =
      CompareResult.report
        (if a.instability_index < b.instability_index then WhichFile.file1
          else WhichFile.file2)
        |a.instability_index - b.instability_index|
        (100 * |a.instability_index - b.instability_index| /
          max a.instability_index b.instability_index) := by
  show (if max a.instability_index b.instability_index = 0 then _ else _) = _
  rw [if_neg h]
  unfold betterAndDiff
  rcases lt_or_le a.instability_index b.instability_index with hlt | hle
  · rw [if_pos hlt, if_pos hlt]
    rw [abs_sub_comm, abs_of_pos (by linarith)]
    ring_nf
  · rw [if_neg (not_lt.mpr hle), if_neg (not_lt.mpr hle)]
    rw [abs_of_nonneg (by linarith)]
    ring_nf

/-- Witness for C8_amended: indices 2 and 3 give winner file1, difference 1,
improvement 100/3 %. -/
theorem C8_witness :
    max (2 : ℚ) 3 ≠ 0 ∧
    compare_trf_files (some ⟨7, 2⟩) (some ⟨9, 3⟩) =
      CompareResult.report WhichFile.file1 1 (100 / 3) := by
  refine ⟨by norm_num, ?_⟩
  have h := C8_amended ⟨7, 2⟩ ⟨9, 3⟩ (by norm_num)
  rw [h]
  norm_num

/-- C10 confirmed: on an exact tie of instability indices the comparator
reports the second input as the better one with `absolute_difference = 0`
(the log lines naming the winner and the difference are emitted before the
percentage is attempted), and the first input is named winner only when its
index is strictly lower. -/
theorem C10_tie_breaks_to_second (a b : StabilityMetrics) :
    (a.instability_index = b.instability_index →
      (compare_trf_files (some a) (some b)).winnerDiff =
        some (WhichFile.file2, 0)) ∧
    (∀ d : ℚ, (compare_trf_files (some a) (some b)).winnerDiff =
        some (WhichFile.file1, d) → a.instability_index < b.instability_index) := by
  have hbd : ∀ h' : ¬a.instability_index < b.instability_index,
      betterAndDiff a b =
        (WhichFile.file2, a.instability_index - b.instability_index) := by
    intro h'
    unfold betterAndDiff
    rw [if_neg h']
  constructor
  · intro hEq
    have hnl : ¬a.instability_index < b.instability_index := by
      rw [hEq]; exact lt_irrefl _
    show (if max a.instability_index b.instability_index = 0 then
        CompareResult.halted (betterAndDiff a b).1 (betterAndDiff a b).2
      else CompareResult.report (betterAndDiff a b).1 (betterAndDiff a b).2
        _).winnerDiff = _
    rw [hbd hnl]
    split <;> simp [CompareResult.winnerDiff, hEq]
  · intro d hW
    by_cases hlt : a.instability_index < b.instability_index
    · exact hlt
    · exfalso
      have : (compare_trf_files (some a) (some b)).winnerDiff =
          some (WhichFile.file2, a.instability_index - b.instability_index) := by
        show (if max a.instability_index b.instability_index = 0 then
            CompareResult.halted (betterAndDiff a b).1 (betterAndDiff a b).2
          else CompareResult.report (betterAndDiff a b).1 (betterAndDiff a b).2
            _).winnerDiff = _
        rw [hbd hlt]
        split <;> simp [CompareResult.winnerDiff]
      rw [hW] at this
      simp at this

/-- Witness for C10 at equal concrete indices. -/
theorem C10_witness :
    ((3 : ℚ) = 3) ∧
    (compare_trf_files (some ⟨4, 3⟩) (some ⟨6, 3⟩)).winnerDiff =
      some (WhichFile.file2, 0) :=
  ⟨rfl, (C10_tie_breaks_to_second ⟨4, 3⟩ ⟨6, 3⟩).1 rfl⟩

/-! ## Claim C5 — candidate feasibility -/

/-- C5 confirmed: a candidate pair is feasible iff `(buffer_length -
header_size)` is exactly divisible by `record_size` and the derived frame
count lies strictly between 100 and 1,000,000; and an infeasible pair is
skipped by the inner search loop with no effect at all (in particular without
sampling the buffer). -/
theorem C5_feasibility (buf : ByteBuf) (header_size record_size : ℤ)
    (rs : List ℤ) (best : Option Config) :
    (feasible buf.size header_size record_size = true ↔
      (((buf.size : ℤ) - header_size).fmod record_size = 0 ∧
        100 < ((buf.size : ℤ) - header_size).fdiv record_size ∧
        ((buf.size : ℤ) - header_size).fdiv record_size < 1000000)) ∧
    (feasible buf.size header_size record_size = false →
      searchInner buf header_size (record_size :: rs) best =
        searchInner buf header_size rs best) := by
  constructor
  · unfold feasible
    simp [and_assoc]
  · intro hf
    conv_lhs => rw [searchInner]
    rw [hf]
    simp

/-- Witness for C5 at concrete inputs: a feasible pair and an infeasible,
skipped pair. -/
theorem C5_witness :
    (feasible (ByteBuf.mk 2440 fun _ => 0).size 16 24 = true ↔
      (((2440 : ℤ) - 16).fmod 24 = 0 ∧ 100 < ((2440 : ℤ) - 16).fdiv 24 ∧
        ((2440 : ℤ) - 16).fdiv 24 < 1000000)) ∧
    (feasible (ByteBuf.mk 100 fun _ => 0).size 16 24 = false) ∧
    searchInner (ByteBuf.mk 100 fun _ => 0) 16 [24] none =
      searchInner (ByteBuf.mk 100 fun _ => 0) 16 [] none := by
  refine ⟨(C5_feasibility (ByteBuf.mk 2440 fun _ => 0) 16 24 [] none).1, by decide, ?_⟩
  exact (C5_feasibility (ByteBuf.mk 100 fun _ => 0) 16 24 [] none).2 (by decide)

/-! ## Claim C6 — sample acceptance gate -/

/-- A buffer of 16 header bytes and 101 records of 24 bytes in which every
record decodes to `(dx, dy, da) = (0.0, 2048.0, 0.0)` (byte 7 of each record
is `0x45`, making the dy field `0x45000000 = 2048.0f`).  Every sampled value
passes validation (`|2048| ≤ 10000`), the dx RMS is 0, but the dy RMS is
2048 ≥ 1000. -/
def bufC6 : ByteBuf :=
  ⟨2440, fun i => if i < 16 then 0 else if (i - 16) % 24 = 7 then 69 else 0⟩

/-- Counterexample to C6: a feasible candidate whose sample passes per-record
validation and whose dx RMS is below 1,000 is nevertheless rejected, because
the code also requires the dy RMS to be below 1,000 — the dx RMS is not the
only gating statistic. -/
theorem C6_counterexample :
    feasible bufC6.size 16 24 = true ∧
    (sampleOf bufC6 16 24 101).isSome = true ∧
    dxRmsSqOf ((sampleOf bufC6 16 24 101).getD []) < 1000 ^ 2 ∧
    acceptCandidate bufC6 16 24 101 = false := by
  refine ⟨by decide, ?_, ?_, ?_⟩
  · with_unfolding_all rfl
  · with_unfolding_all decide
  · with_unfolding_all rfl

/-- C6 amended: a feasible candidate is accepted iff its sample survives
validation nonempty and **both** the dx RMS and the dy RMS are below 1,000. -/
theorem C6_amended (buf : ByteBuf) (header_size record_size frame_count : ℤ) :
    acceptCandidate buf header_size record_size frame_count = true ↔
      ∃ ts, sampleOf buf header_size record_size frame_count = some ts ∧
        ts ≠ [] ∧ dxRmsSqOf ts < 1000 ^ 2 ∧ dyRmsSqOf ts < 1000 ^ 2 := by
  unfold acceptCandidate
  cases h : sampleOf buf header_size record_size frame_count with
  | none => simp
  | some ts =>
    simp only [Option.some.injEq, Bool.and_eq_true, Bool.not_eq_true',
      decide_eq_true_eq, List.isEmpty_eq_false]
    constructor
    · rintro ⟨h1, h2, h3⟩
      exact ⟨ts, rfl, h1, h2, h3⟩
    · rintro ⟨ts', hts', h1, h2, h3⟩
      cases hts'
      exact ⟨h1, h2, h3⟩

/-! ## Decode-loop characterization (shared by C2, C3, C4) -/

/-- Number of whole records of width `rsize` that fit between byte `start`
and the end of the buffer. -/
def fitCount (buf : ByteBuf) (start rsize : ℤ) : ℤ :=
  ((buf.size : ℤ) - start).fdiv rsize

theorem decodeRecords_break_iff (buf : ByteBuf) (start rsize : ℤ)
    (hr : 0 < rsize) (i : ℕ) :
    ((buf.size : ℤ) < start + i * rsize + rsize ↔ fitCount buf start rsize ≤ i) := by
  unfold fitCount
  rw [Int.fdiv_eq_ediv _ (le_of_lt hr)]
  constructor
  · intro h
    by_contra hc
    push_neg at hc
    have h2 : (i : ℤ) + 1 ≤ ((buf.size : ℤ) - start) / rsize := hc
    have := (Int.le_ediv_iff_mul_le hr).mp h2
    nlinarith
  · intro h
    by_contra hc
    push_neg at hc
    have h2 : ((i : ℤ) + 1) * rsize ≤ (buf.size : ℤ) - start := by nlinarith
    have := (Int.le_ediv_iff_mul_le hr).mpr h2
    omega

/-- The decode loop yields exactly the records at indices
`i, i+1, …` until either the iteration budget runs out or the next record
would cross the buffer end — and each element is the raw `nf`-float record
at its offset, unmodified. -/
theorem decodeRecords_eq (buf : ByteBuf) (start rsize : ℤ) (nf : ℕ)
    (hr : 0 < rsize) :
    ∀ (k i : ℕ), decodeRecords buf start rsize nf i k =
      (List.range (min k (fitCount buf start rsize - i).toNat)).map
        fun j : ℕ => recordAt buf (start + ((i : ℤ) + (j : ℤ)) * rsize) nf := by
  intro k
  induction k with
  | zero => intro i; simp [decodeRecords]
  | succ k ih =>
    intro i
    rw [decodeRecords]
    by_cases hc : (buf.size : ℤ) < start + i * rsize + rsize
    · rw [if_pos hc]
      have hfit : fitCount buf start rsize ≤ i :=
        (decodeRecords_break_iff buf start rsize hr i).mp hc
      have : (fitCount buf start rsize - i).toNat = 0 := by omega
      rw [this]
      simp
    · rw [if_neg hc]
      have hfit : (i : ℤ) + 1 ≤ fitCount buf start rsize := by
        have := (decodeRecords_break_iff buf start rsize hr i).not.mp hc
        omega
      have hmin : min (k + 1) (fitCount buf start rsize - i).toNat =
          min k (fitCount buf start rsize - ((i : ℕ) + 1)).toNat + 1 := by
        omega
      rw [ih (i + 1), hmin, List.range_succ_eq_map, List.map_cons, List.map_map]
      refine congrArg₂ List.cons ?_ ?_
      · show recordAt buf (start + (i : ℤ) * rsize) nf = _
        norm_num
      · apply List.map_congr_left
        intro a _
        simp only [Function.comp_apply]
        congr 1
        push_cast
        ring

theorem decodeRecords_length (buf : ByteBuf) (start rsize : ℤ) (nf : ℕ)
    (hr : 0 < rsize) (k i : ℕ) :
    (decodeRecords buf start rsize nf i k).length =
      min k (fitCount buf start rsize - i).toNat := by
  rw [decodeRecords_eq buf start rsize nf hr k i]
  simp

/-! ## Claim C2 — sanitization of decoded fields -/

/-- The property C2 asserts of the returned raw sequence: every field of
every transform is finite with magnitude at most 10,000. -/
def allFieldsWithin (ts : List (List F32)) : Bool :=
  ts.all fun t => t.all fun v =>
    match v with
    | F32.finite q => decide (|q| ≤ 10000)
    | _ => false

/-- A buffer whose selected layout is (header 16, record 24, 101 frames),
all-zero except that record 50 decodes to `dx = 2^29` (byte 1219 = `0x4E`
makes the first float `0x4E000000 = 536870912.0f`).  The sample window only
covers records 0..19, so the candidate is accepted. -/
def bufC2 : ByteBuf :=
  ⟨2440, fun i => if i = 1219 then 78 else 0⟩

/-- Counterexample to C2: the bulk decoder performs no sanitization — the
out-of-range field `dx = 2^29` of record 50 is returned as-is, not replaced
with 0.0, so the returned sequence is not within bounds. -/
theorem C2_counterexample :
    best_config bufC2 = some ⟨16, 24, 101⟩ ∧
    (bulkDecode bufC2 16 24 101).length = 101 ∧
    ((bulkDecode bufC2 16 24 101).getD 50 []).getD 0 F32.nan =
      F32.finite 536870912 ∧
    allFieldsWithin (bulkDecode bufC2 16 24 101) = false := by
  refine ⟨?_, ?_, ?_, ?_⟩ <;> with_unfolding_all rfl

/-- C2 amended: the bulk decoder preserves record count and returns each
record's first three decoded floats **unmodified** (no replacement of NaN or
out-of-range fields by 0.0); separately, the valid subset used for metrics
keeps exactly the transforms of length ≥ 3 whose first three fields are all
finite with magnitude strictly below 10,000. -/
theorem C2_amended (buf : ByteBuf) (header_size record_size frame_count : ℤ)
    (hr : 0 < record_size) (j : ℕ)
    (hj : j < (bulkDecode buf header_size record_size frame_count).length) :
    (bulkDecode buf header_size record_size frame_count).getD j [] =
      recordAt buf (header_size + j * record_size) 3 ∧
    ∀ (ts : List (List F32)) (t : List F32),
      t ∈ valid_transforms ts ↔
        t ∈ ts ∧ 3 ≤ t.length ∧ (t.take 3).all F32.isValid = true := by
  constructor
  · rw [bulkDecode, decodeRecords_eq buf header_size record_size 3 hr] at hj ⊢
    rw [List.length_map, List.length_range] at hj
    rw [List.getD_eq_getElem?_getD, List.getElem?_map, List.getElem?_range hj]
    simp
  · intro ts t
    unfold valid_transforms
    rw [List.mem_filter]
    simp [and_assoc]

/-- Witness for C2_amended on a concrete 64-byte zero buffer (2 records). -/
theorem C2_witness :
    (0 : ℤ) < 24 ∧ 0 < (bulkDecode (ByteBuf.mk 64 fun _ => 0) 16 24 2).length ∧
    (bulkDecode (ByteBuf.mk 64 fun _ => 0) 16 24 2).getD 0 [] =
      recordAt (ByteBuf.mk 64 fun _ => 0) (16 + (0 : ℕ) * 24) 3 := by
  have hlen : (bulkDecode (ByteBuf.mk 64 fun _ => 0) 16 24 2).length = 2 := by
    with_unfolding_all rfl
  refine ⟨by norm_num, by omega, ?_⟩
  exact (C2_amended (ByteBuf.mk 64 fun _ => 0) 16 24 2 (by norm_num) 0 (by omega)).1

/-! ## Claim C3 — the header's frame_count is not advisory in the fallback -/

/-- A 92-byte buffer with a valid `TRF1` magic whose header field
`frame_count` is `b8`; bytes 20.. provide room for three 24-byte fallback
records. -/
def bufC3 (b8 : ℕ) : ByteBuf :=
  ⟨92, fun i => if i = 0 then 84 else if i = 1 then 82 else if i = 2 then 70
    else if i = 3 then 49 else if i = 8 then b8 else 0⟩

/-- Counterexample to C3: two buffers of identical size (room for 3 records)
that differ only in the header's advertised frame_count produce fallback
decodes of different lengths (1 vs 2) — the fallback decoder's output length
depends on the header's frame_count. -/
theorem C3_counterexample :
    parse_trf_header (bufC3 1) = some ⟨0, 1, 0⟩ ∧
    parse_trf_header (bufC3 2) = some ⟨0, 2, 0⟩ ∧
    (bufC3 1).size = (bufC3 2).size ∧
    (analyze_trf_data (bufC3 1) (parse_trf_header (bufC3 1))).length = 1 ∧
    (analyze_trf_data (bufC3 2) (parse_trf_header (bufC3 2))).length = 2 := by
  refine ⟨?_, ?_, rfl, ?_, ?_⟩ <;> with_unfolding_all rfl

/-- C3 amended: the advertised frame_count is ignored by the search-based
decode path (which never reads the header), but it *does* determine the
fallback decoder's output: with a parsed header the fallback produces exactly
`min(frame_count, records_that_fit)` transforms, against
`records_that_fit = (len(data) - 20) // 24` without one. -/
theorem C3_amended (buf : ByteBuf) (hdr : HeaderInfo) :
    (analyze_trf_data buf (some hdr)).length =
      min hdr.frame_count (fitCount buf 20 24).toNat ∧
    (analyze_trf_data buf none).length = (fitCount buf 20 24).toNat := by
  constructor
  · unfold analyze_trf_data
    rw [List.length_map, decodeRecords_length buf 20 24 6 (by norm_num)]
    simp [fitCount]
  · unfold analyze_trf_data
    rw [List.length_map, decodeRecords_length buf 20 24 6 (by norm_num)]
    simp [fitCount]

/-! ## Claim C4 — bulk-decode length invariant -/

theorem searchInner_sound (buf : ByteBuf) (header_size : ℤ) :
    ∀ (rs : List ℤ) (best : Option Config) (c : Config),
      searchInner buf header_size rs best = some c →
      best = some c ∨
        (c.header_size = header_size ∧ c.record_size ∈ rs ∧
          feasible buf.size header_size c.record_size = true ∧
          c.frame_count = ((buf.size : ℤ) - header_size).fdiv c.record_size) := by
  intro rs
  induction rs with
  | nil => intro best c h; exact Or.inl h
  | cons r rs ih =>
    intro best c h
    rw [searchInner] at h
    by_cases hf : feasible buf.size header_size r = true
    · rw [if_pos hf] at h
      by_cases ha : acceptCandidate buf header_size r
          (((buf.size : ℤ) - header_size).fdiv r) = true
      · rw [if_pos ha] at h
        by_cases he : isExcellent ⟨header_size, r,
            ((buf.size : ℤ) - header_size).fdiv r⟩ = true
        · rw [if_pos he] at h
          cases h
          exact Or.inr ⟨rfl, List.mem_cons_self r rs, hf, rfl⟩
        · rw [if_neg he] at h
          rcases ih _ c h with hbest | hprop
          · cases hbest
            exact Or.inr ⟨rfl, List.mem_cons_self r rs, hf, rfl⟩
          · exact Or.inr ⟨hprop.1, List.mem_cons_of_mem r hprop.2.1,
              hprop.2.2⟩
      · rw [if_neg ha] at h
        rcases ih best c h with hbest | hprop
        · exact Or.inl hbest
        · exact Or.inr ⟨hprop.1, List.mem_cons_of_mem r hprop.2.1, hprop.2.2⟩
    · rw [if_neg hf] at h
      rcases ih best c h with hbest | hprop
      · exact Or.inl hbest
      · exact Or.inr ⟨hprop.1, List.mem_cons_of_mem r hprop.2.1, hprop.2.2⟩

/-- The facts every search-selected layout satisfies: its record size is one
of the enumerated candidates, the pair is feasible for the buffer, and the
frame count is the derived one. -/
def soundConfig (buf : ByteBuf) (c : Config) : Prop :=
  c.record_size ∈ possible_sizes ∧
    feasible buf.size c.header_size c.record_size = true ∧
    c.frame_count = ((buf.size : ℤ) - c.header_size).fdiv c.record_size

theorem searchInner_soundConfig (buf : ByteBuf) (header_size : ℤ)
    (best : Option Config) (c : Config)
    (hbest : ∀ c', best = some c' → soundConfig buf c')
    (h : searchInner buf header_size possible_sizes best = some c) :
    soundConfig buf c := by
  rcases searchInner_sound buf header_size possible_sizes best c h with hb | hp
  · exact hbest c hb
  · refine ⟨hp.2.1, ?_, ?_⟩
    · rw [hp.1]; exact hp.2.2.1
    · rw [hp.1]; exact hp.2.2.2

theorem searchOuter_sound (buf : ByteBuf) :
    ∀ (hs : List ℤ) (best : Option Config) (c : Config),
      (∀ c', best = some c' → soundConfig buf c') →
      searchOuter buf hs best = some c → soundConfig buf c := by
  intro hs
  induction hs with
  | nil =>
    intro best c hbest h
    rw [searchOuter] at h
    exact hbest c h
  | cons hsz hs ih =>
    intro best c hbest h
    rw [searchOuter] at h
    cases hb' : searchInner buf hsz possible_sizes best with
    | some c'' =>
      have hc'' : soundConfig buf c'' :=
        searchInner_soundConfig buf hsz best c'' hbest hb'
      rw [hb'] at h
      dsimp only at h
      by_cases he : isExcellent c'' = true
      · rw [if_pos he] at h
        cases h
        exact hc''
      · rw [if_neg he] at h
        refine ih (some c'') c ?_ h
        intro c' hc'
        cases hc'
        exact hc''
    | none =>
      rw [hb'] at h
      dsimp only at h
      refine ih none c ?_ h
      intro c' hc'
      exact absurd hc' (by simp)

theorem best_config_sound (buf : ByteBuf) (c : Config)
    (h : best_config buf = some c) : soundConfig buf c :=
  searchOuter_sound buf header_sizes none c
    (fun c' hc' => absurd hc' (by simp)) h

/-- Every enumerated record size is positive. -/
theorem possible_sizes_pos : ∀ r ∈ possible_sizes, (0 : ℤ) < r := by decide

/-- C4 confirmed for the search-selected bulk decode: the produced sequence
has length exactly `min(selected_frame_count, 100000)` (feasibility makes the
data region an exact multiple of the record size, so the bound never cuts a
record short), and — second conjunct — on *any* layout with positive record
size the decode loop is total and stops at the buffer end, yielding
`min(min(frame_count, 100000), records_that_fit)` records. -/
theorem C4_bulk_length (buf : ByteBuf) (c : Config)
    (hc : best_config buf = some c) :
    (bulkDecode buf c.header_size c.record_size c.frame_count).length =
      (min c.frame_count 100000).toNat ∧
    ∀ (header_size record_size frame_count : ℤ), 0 < record_size →
      (bulkDecode buf header_size record_size frame_count).length =
        min (min frame_count 100000).toNat
          (fitCount buf header_size record_size).toNat := by
  have hgen : ∀ (header_size record_size frame_count : ℤ), 0 < record_size →
      (bulkDecode buf header_size record_size frame_count).length =
        min (min frame_count 100000).toNat
          (fitCount buf header_size record_size).toNat := by
    intro header_size record_size frame_count hr
    rw [bulkDecode, decodeRecords_length buf header_size record_size 3 hr]
    simp
  obtain ⟨hmem, hfeas, hfc⟩ := best_config_sound buf c hc
  have hr : (0 : ℤ) < c.record_size := possible_sizes_pos c.record_size hmem
  refine ⟨?_, hgen⟩
  rw [hgen c.header_size c.record_size c.frame_count hr]
  have hmod : ((buf.size : ℤ) - c.header_size).fmod c.record_size = 0 := by
    unfold feasible at hfeas
    simp only [Bool.and_eq_true, decide_eq_true_eq] at hfeas
    exact hfeas.1
  have hbound : 100 < ((buf.size : ℤ) - c.header_size).fdiv c.record_size := by
    unfold feasible at hfeas
    simp only [Bool.and_eq_true, decide_eq_true_eq] at hfeas
    exact hfeas.2.1
  have hfit : fitCount buf c.header_size c.record_size = c.frame_count := by
    rw [fitCount, hfc]
  rw [hfit]
  omega

/-- Witness for C4 on a concrete all-zero buffer selecting layout
(16, 24, 101). -/
theorem C4_witness :
    best_config (ByteBuf.mk 2440 fun _ => 0) = some ⟨16, 24, 101⟩ ∧
    (bulkDecode (ByteBuf.mk 2440 fun _ => 0) 16 24 101).length =
      ((min 101 100000 : ℤ)).toNat ∧
    (0 : ℤ) < 24 ∧
    (bulkDecode (ByteBuf.mk 2440 fun _ => 0) 20 24 7).length =
      min ((min 7 100000 : ℤ)).toNat
        (fitCount (ByteBuf.mk 2440 fun _ => 0) 20 24).toNat := by
  have hbc : best_config (ByteBuf.mk 2440 fun _ => 0) = some ⟨16, 24, 101⟩ := by
    with_unfolding_all rfl
  have h := C4_bulk_length (ByteBuf.mk 2440 fun _ => 0) ⟨16, 24, 101⟩ hbc
  exact ⟨hbc, h.1, by norm_num, h.2 20 24 7 (by norm_num)⟩

/-! ## Claim C1 — selection policy of the search -/

/-- The accepted candidates drawn from record sizes `rs`, in enumeration
order. -/
def acceptedInner (buf : ByteBuf) (header_size : ℤ) (rs : List ℤ) :
    List Config :=
  rs.filterMap fun record_size =>
    if feasible buf.size header_size record_size &&
        acceptCandidate buf header_size record_size
          (((buf.size : ℤ) - header_size).fdiv record_size) then
      some ⟨header_size, record_size,
        ((buf.size : ℤ) - header_size).fdiv record_size⟩
    else none

/-- All accepted candidates of the full enumeration (header sizes outer,
record sizes inner), in enumeration order. -/
def acceptedConfigs (buf : ByteBuf) : List Config :=
  header_sizes.flatMap fun header_size =>
    acceptedInner buf header_size possible_sizes

/-- The policy the loops implement relative to a carried `best_config`:
the first accepted candidate within 10 frames of the expectation if one
exists (enumeration stops there), otherwise the last accepted candidate,
otherwise the carried value. -/
def policyAux (l : List Config) (best : Option Config) : Option Config :=
  ((l.find? isExcellent).or l.getLast?).or best

/-- What the search actually selects from the accepted list: the first
"excellent" accepted candidate (within 10 frames of the hard-coded
expectation) if any, else the **last** accepted candidate. -/
def selectionPolicy (l : List Config) : Option Config :=
  (l.find? isExcellent).or l.getLast?

theorem getLast?_cons_or (c : Config) (l : List Config) :
    (c :: l).getLast? = l.getLast?.or (some c) := by
  have : c :: l = [c] ++ l := rfl
  rw [this, List.getLast?_append]
  rfl

theorem policyAux_cons_not_excellent (c : Config) (l : List Config)
    (best : Option Config) (he : isExcellent c = false) :
    policyAux (c :: l) best = policyAux l (some c) := by
  unfold policyAux
  rw [List.find?_cons_of_neg _ (by rw [he]; exact Bool.false_ne_true),
    getLast?_cons_or, Option.or_assoc, Option.or_assoc, Option.or_assoc,
    Option.or_some]

theorem searchInner_policy (buf : ByteBuf) (header_size : ℤ) :
    ∀ (rs : List ℤ) (best : Option Config),
      searchInner buf header_size rs best =
        policyAux (acceptedInner buf header_size rs) best := by
  intro rs
  induction rs with
  | nil => intro best; rfl
  | cons r rs ih =>
    intro best
    rw [searchInner]
    by_cases hf : feasible buf.size header_size r = true
    · rw [if_pos hf]
      by_cases ha : acceptCandidate buf header_size r
          (((buf.size : ℤ) - header_size).fdiv r) = true
      · rw [if_pos ha]
        have hacc : acceptedInner buf header_size (r :: rs) =
            ⟨header_size, r, ((buf.size : ℤ) - header_size).fdiv r⟩ ::
              acceptedInner buf header_size rs := by
          unfold acceptedInner
          rw [List.filterMap_cons]
          simp [hf, ha]
        rw [hacc]
        by_cases he : isExcellent ⟨header_size, r,
            ((buf.size : ℤ) - header_size).fdiv r⟩ = true
        · rw [if_pos he]
          unfold policyAux
          rw [List.find?_cons_of_pos _ he]
          rfl
        · rw [if_neg he, ih,
            policyAux_cons_not_excellent _ _ _ (Bool.eq_false_iff.mpr he)]
      · rw [if_neg ha]
        have hacc : acceptedInner buf header_size (r :: rs) =
            acceptedInner buf header_size rs := by
          unfold acceptedInner
          rw [List.filterMap_cons]
          simp [Bool.eq_false_iff.mpr ha]
        rw [hacc]
        exact ih best
    · rw [if_neg hf]
      have hacc : acceptedInner buf header_size (r :: rs) =
          acceptedInner buf header_size rs := by
        unfold acceptedInner
        rw [List.filterMap_cons]
        simp [Bool.eq_false_iff.mpr hf]
      rw [hacc]
      exact ih best

theorem searchOuter_policy (buf : ByteBuf) :
    ∀ (hs : List ℤ) (best : Option Config),
      (∀ c, best = some c → isExcellent c = false) →
      searchOuter buf hs best =
        policyAux (hs.flatMap fun h => acceptedInner buf h possible_sizes)
          best := by
  intro hs
  induction hs with
  | nil =>
    intro best _
    rw [searchOuter]
    rfl
  | cons hsz hs ih =>
    intro best hbest
    rw [searchOuter, List.flatMap_cons]
    have hb' := searchInner_policy buf hsz possible_sizes best
    cases hcase : searchInner buf hsz possible_sizes best with
    | some c =>
      rw [hcase] at hb'
      dsimp only
      by_cases he : isExcellent c = true
      · rw [if_pos he]
        -- the accepted list of this header iteration must contain c
        -- as its first excellent element
        have hfind : (acceptedInner buf hsz possible_sizes).find? isExcellent =
            some c := by
          unfold policyAux at hb'
          cases hf : (acceptedInner buf hsz possible_sizes).find? isExcellent with
          | some e =>
            rw [hf, Option.or_some, Option.or_some] at hb'
            cases hb'
            rfl
          | none =>
            exfalso
            rw [hf, Option.none_or] at hb'
            cases hl : (acceptedInner buf hsz possible_sizes).getLast? with
            | some d =>
              rw [hl, Option.or_some] at hb'
              cases hb'
              have hmem := List.mem_of_getLast?_eq_some hl
              have := (List.find?_eq_none.mp hf) _ hmem
              exact this he
            | none =>
              rw [hl, Option.none_or] at hb'
              have := hbest c hb'.symm
              rw [he] at this
              exact absurd this (by decide)
        unfold policyAux
        rw [List.find?_append, hfind, Option.or_some, Option.or_some,
          Option.or_some]
      · rw [if_neg he]
        rw [ih (some c) (by intro c' hc'; cases hc'; exact Bool.eq_false_iff.mpr he)]
        -- find? finds only excellent elements, so it returned none here
        have hfind : (acceptedInner buf hsz possible_sizes).find? isExcellent =
            none := by
          cases hf : (acceptedInner buf hsz possible_sizes).find? isExcellent with
          | none => rfl
          | some e =>
            exfalso
            unfold policyAux at hb'
            rw [hf, Option.or_some, Option.or_some] at hb'
            cases hb'
            exact he (List.find?_some hf)
        have hlast : some c =
            ((acceptedInner buf hsz possible_sizes).getLast?).or best := by
          unfold policyAux at hb'
          rw [hfind, Option.none_or] at hb'
          exact hb'
        unfold policyAux
        rw [List.find?_append, hfind, Option.none_or, List.getLast?_append]
        simp only [Option.or_assoc]
        rw [← hlast]
    | none =>
      rw [hcase] at hb'
      dsimp only
      rw [ih none (by intro c' hc'; exact absurd hc' (by simp))]
      unfold policyAux at hb' ⊢
      have h3 : (acceptedInner buf hsz possible_sizes).find? isExcellent = none ∧
          (acceptedInner buf hsz possible_sizes).getLast? = none ∧
          best = none := by
        rcases Option.or_eq_none.mp hb'.symm with ⟨h12, h3⟩
        rcases Option.or_eq_none.mp h12 with ⟨h1, h2⟩
        exact ⟨h1, h2, h3⟩
      rw [List.find?_append, h3.1, Option.none_or, List.getLast?_append,
        h3.2.1, h3.2.2]
      simp [Option.or_none]

/-- C1 amended: the search selects the first accepted candidate whose frame
count is within 10 of the hard-coded expectation (16,514) when one exists
(enumeration stops there); otherwise it selects the **last** accepted
candidate in enumeration order.  It is neither a closest-to-expectation
choice nor a first-fit choice, and there is no mode without an expectation —
the expectation is always the fixed constant. -/
theorem C1_amended (buf : ByteBuf) :
    best_config buf = selectionPolicy (acceptedConfigs buf) := by
  rw [best_config, searchOuter_policy buf header_sizes none
    (by intro c hc; exact absurd hc (by simp))]
  unfold policyAux selectionPolicy acceptedConfigs
  rw [Option.or_none]

/-- An all-zero 9616-byte buffer: every feasible pair decodes a valid
all-zero sample with zero RMS, so every feasible pair is accepted.  The
accepted candidates are, in enumeration order, (16,24,400), (16,32,300),
(16,48,200), (16,64,150), (64,24,398), (64,48,199), (256,24,390),
(256,48,195), (256,52,180) — none within 10 of 16,514. -/
def bufC1 : ByteBuf := ⟨9616, fun _ => 0⟩

/-- Counterexample to C1: the engine's a-priori expectation (16,514, always
supplied — it is hard-coded) should select the accepted candidate with the
closest frame count, which is (16,24,400); the code instead returns the
*last* accepted candidate (256,52,180), which is strictly farther from the
expectation. -/
theorem C1_counterexample :
    best_config bufC1 = some ⟨256, 52, 180⟩ ∧
    feasible bufC1.size 16 24 = true ∧
    acceptCandidate bufC1 16 24 400 = true ∧
    ((bufC1.size : ℤ) - 16).fdiv 24 = 400 ∧
    |(400 : ℤ) - expected_frames| < |(180 : ℤ) - expected_frames| := by
  refine ⟨?_, by decide, ?_, by decide, by decide⟩
  · with_unfolding_all rfl
  · with_unfolding_all rfl

/-! ## Claim C9 — text export / parse round trip

The text layer is modelled at whitespace-token granularity: a file is a list
of lines, a line the list of its whitespace-separated tokens (`str.split()`),
a token a `List Char`.  `f"{x:.6f}"` on a finite float is embedded as exact
6-decimal fixed-point rendering with round-half-to-even (`fmt6`), and
Python's `float` constructor as exact decimal parsing (`parseFloat`) — the
embedding carries float values as exact rationals throughout. -/

/-- Numeric value of a decimal digit character. -/
def digitVal (c : Char) : ℕ := c.toNat - 48

/-- Decimal digit string to number, most significant digit first. -/
def parseDigits (cs : List Char) : ℕ :=
  cs.foldl (fun a c => 10 * a + digitVal c) 0

/-- Decimal rendering of a natural number (`str(n)`). -/
def natToStr (n : ℕ) : List Char :=
  if n = 0 then ['0'] else ((Nat.digits 10 n).map Nat.digitChar).reverse

/-- The base-10 digits of `b` padded with zeros to 6 digits
(little-endian). -/
def padDigits6 (b : ℕ) : List ℕ :=
  Nat.digits 10 b ++ List.replicate (6 - (Nat.digits 10 b).length) 0

/-- The 6-character fractional part of a fixed-point rendering,
most significant digit first. -/
def frac6Str (b : ℕ) : List Char :=
  ((padDigits6 b).map Nat.digitChar).reverse

/-- `round(q * 10^6)` with round-half-to-even, the rounding used by
`f"{q:.6f}"`. -/
def round6int (q : ℚ) : ℤ :=
  if q * 1000000 - ⌊q * 1000000⌋ < 1 / 2 then ⌊q * 1000000⌋
  else if 1 / 2 < q * 1000000 - ⌊q * 1000000⌋ then ⌊q * 1000000⌋ + 1
  else if ⌊q * 1000000⌋ % 2 = 0 then ⌊q * 1000000⌋ else ⌊q * 1000000⌋ + 1

/-- The value actually written by `f"{q:.6f}"`: `q` rounded to 6 decimals. -/
def round6 (q : ℚ) : ℚ := (round6int q : ℚ) / 1000000

/-- `f"{q:.6f}"`: sign, integer part, dot, 6 fractional digits. -/
def fmt6 (q : ℚ) : List Char :=
  (if q < 0 then ['-'] else []) ++
    natToStr ((round6int q).natAbs / 1000000) ++
    '.' :: frac6Str ((round6int q).natAbs % 1000000)

/-- Split a string into its leading digit run and the rest. -/
def takeDigits : List Char → List Char × List Char
  | [] => ([], [])
  | c :: cs =>
    if c.isDigit then ((takeDigits cs).1.cons c, (takeDigits cs).2)
    else ([], c :: cs)

/-- Unsigned fixed-point decimal parsing: `digits` or `digits.digits`. -/
def parseUFloat (cs : List Char) : Option ℚ :=
  if (takeDigits cs).1.isEmpty then none
  else
    match (takeDigits cs).2 with
    | [] => some (parseDigits (takeDigits cs).1)
    | c :: fp =>
      if c = '.' then
        if fp.isEmpty then none
        else if fp.all Char.isDigit then
          some ((parseDigits (takeDigits cs).1 : ℚ) +
            (parseDigits fp : ℚ) / ((10 ^ fp.length : ℕ) : ℚ))
        else none
      else none

/-- `float(token)` restricted to the fixed-point decimals the exporter
emits: a leading `-` negates the unsigned parse of the rest. -/
def parseFloat (cs : List Char) : Option ℚ :=
  if cs.head? = some '-' then (parseUFloat cs.tail).map (fun x => -x)
  else parseUFloat cs

/-- The data lines of `export_to_ascii`, one per transform:
`f"{i} {t[0]:.6f} {t[1]:.6f} {t[2]:.6f}"` (whitespace-token form). -/
def exportLines (i : ℕ) : List (List ℚ) → List (List (List Char))
  | [] => []
  | t :: ts =>
    [natToStr i, fmt6 (t.getD 0 0), fmt6 (t.getD 1 0), fmt6 (t.getD 2 0)] ::
      exportLines (i + 1) ts

/-- `export_to_ascii`: two `#` comment header lines, then one data line per
transform in order. -/
def export_to_ascii (ts : List (List ℚ)) : List (List (List Char)) :=
  [['#'], "VidStab".data, "transform".data, "data".data] ::
    [['#'], "Frame".data, "count:".data, natToStr ts.length] ::
    exportLines 0 ts

/-- `line.startswith('#')` on the token form. -/
def startsWithHash (tok : List Char) : Bool :=
  match tok with
  | [] => false
  | c :: _ => c == '#'

/-- A line the text parser skips: blank, or a `#` comment. -/
def isSkippedLine (line : List (List Char)) : Bool :=
  match line with
  | [] => true
  | tok :: _ => startsWithHash tok

/-- `parse_ascii_trf`: skip comments and blanks, keep `[float(parts[1]),
float(parts[2]), float(parts[3])]` of every line with at least 4 tokens
(a failing `float()` raises, aborting the parse — modelled as `none`),
silently drop shorter lines. -/
def parse_ascii_trf : List (List (List Char)) → Option (List (List ℚ))
  | [] => some []
  | line :: rest =>
    if isSkippedLine line then parse_ascii_trf rest
    else if 4 ≤ line.length then
      match parseFloat (line.getD 1 []), parseFloat (line.getD 2 []),
          parseFloat (line.getD 3 []) with
      | some a, some b, some c =>
        (parse_ascii_trf rest).map (fun ts => [a, b, c] :: ts)
      | _, _, _ => none
    else parse_ascii_trf rest

theorem digitVal_digitChar {d : ℕ} (hd : d < 10) :
    digitVal (Nat.digitChar d) = d := by
  interval_cases d <;> decide

theorem isDigit_digitChar {d : ℕ} (hd : d < 10) :
    (Nat.digitChar d).isDigit = true := by
  interval_cases d <;> decide

theorem isDigit_not_hash {c : Char} (h : c.isDigit = true) :
    (c == '#') = false := by
  cases hbe : c == '#' with
  | false => rfl
  | true =>
    have : c = '#' := eq_of_beq hbe
    subst this
    exact absurd h (by decide)

theorem isDigit_ne_hyphen {c : Char} (h : c.isDigit = true) : c ≠ '-' := by
  intro hc
  subst hc
  exact absurd h (by decide)

theorem parseDigits_append (cs : List Char) (c : Char) :
    parseDigits (cs ++ [c]) = 10 * parseDigits cs + digitVal c := by
  unfold parseDigits
  rw [List.foldl_append]
  rfl

theorem parseDigits_reverse_map (L : List ℕ) (hL : ∀ d ∈ L, d < 10) :
    parseDigits ((L.map Nat.digitChar).reverse) = Nat.ofDigits 10 L := by
  induction L with
  | nil => rfl
  | cons d L ih =>
    rw [List.map_cons, List.reverse_cons, parseDigits_append,
      ih (fun x hx => hL x (List.mem_cons_of_mem d hx)),
      digitVal_digitChar (hL d (List.mem_cons_self d L)), Nat.ofDigits_cons]
    ring

theorem parseDigits_natToStr (n : ℕ) : parseDigits (natToStr n) = n := by
  unfold natToStr
  by_cases hn : n = 0
  · rw [if_pos hn, hn]
    decide
  · rw [if_neg hn,
      parseDigits_reverse_map _ (fun d hd => Nat.digits_lt_base (by norm_num) hd),
      Nat.ofDigits_digits]

theorem natToStr_all_digit (n : ℕ) : ∀ c ∈ natToStr n, c.isDigit = true := by
  intro c hc
  unfold natToStr at hc
  by_cases hn : n = 0
  · rw [if_pos hn] at hc
    simp at hc
    subst hc
    decide
  · rw [if_neg hn] at hc
    rw [List.mem_reverse, List.mem_map] at hc
    obtain ⟨d, hd, rfl⟩ := hc
    exact isDigit_digitChar (Nat.digits_lt_base (by norm_num) hd)

theorem natToStr_ne_nil (n : ℕ) : natToStr n ≠ [] := by
  unfold natToStr
  by_cases hn : n = 0
  · rw [if_pos hn]
    simp
  · rw [if_neg hn]
    simp [Nat.digits_ne_nil_iff_ne_zero.mpr hn]

theorem ofDigits_replicate_zero (k : ℕ) :
    Nat.ofDigits 10 (List.replicate k 0) = 0 := by
  induction k with
  | zero => rfl
  | succ k ih =>
    rw [List.replicate_succ, Nat.ofDigits_cons, ih]

theorem digits_len_le {b : ℕ} (hb : b < 1000000) :
    (Nat.digits 10 b).length ≤ 6 := by
  by_cases h0 : b = 0
  · subst h0
    simp
  · rw [Nat.digits_len 10 b (by norm_num) h0]
    have h10 : (10 : ℕ) ^ 6 = 1000000 := by norm_num
    have hb6 : b < 10 ^ 6 := by rw [h10]; exact hb
    have := Nat.log_lt_of_lt_pow h0 hb6
    omega

theorem padDigits6_length {b : ℕ} (hb : b < 1000000) :
    (padDigits6 b).length = 6 := by
  unfold padDigits6
  rw [List.length_append, List.length_replicate]
  have := digits_len_le hb
  omega

theorem padDigits6_lt (b : ℕ) : ∀ d ∈ padDigits6 b, d < 10 := by
  intro d hd
  unfold padDigits6 at hd
  rcases List.mem_append.mp hd with h | h
  · exact Nat.digits_lt_base (by norm_num) h
  · rw [List.eq_of_mem_replicate h]
    norm_num

theorem ofDigits_padDigits6 (b : ℕ) : Nat.ofDigits 10 (padDigits6 b) = b := by
  unfold padDigits6
  rw [Nat.ofDigits_append, ofDigits_replicate_zero, Nat.ofDigits_digits]
  ring

theorem parseDigits_frac6 (b : ℕ) : parseDigits (frac6Str b) = b := by
  unfold frac6Str
  rw [parseDigits_reverse_map _ (padDigits6_lt b), ofDigits_padDigits6]

theorem frac6Str_length {b : ℕ} (hb : b < 1000000) :
    (frac6Str b).length = 6 := by
  unfold frac6Str
  rw [List.length_reverse, List.length_map, padDigits6_length hb]

theorem frac6Str_all_digit (b : ℕ) : (frac6Str b).all Char.isDigit = true := by
  rw [List.all_eq_true]
  intro c hc
  unfold frac6Str at hc
  rw [List.mem_reverse, List.mem_map] at hc
  obtain ⟨d, hd, rfl⟩ := hc
  exact isDigit_digitChar (padDigits6_lt b d hd)

theorem takeDigits_append (ds : List Char) (hds : ∀ c ∈ ds, c.isDigit = true)
    (c : Char) (hc : c.isDigit = false) (cs : List Char) :
    takeDigits (ds ++ c :: cs) = (ds, c :: cs) := by
  induction ds with
  | nil =>
    rw [List.nil_append, takeDigits, hc]
    simp
  | cons d ds ih =>
    have hd : d.isDigit = true := hds d (List.mem_cons_self d ds)
    rw [List.cons_append, takeDigits, hd,
      ih (fun x hx => hds x (List.mem_cons_of_mem d hx))]
    simp

theorem parseUFloat_fixed (a b : ℕ) (hb : b < 1000000) :
    parseUFloat (natToStr a ++ '.' :: frac6Str b) =
      some ((a : ℚ) + (b : ℚ) / 1000000) := by
  have htd : takeDigits (natToStr a ++ '.' :: frac6Str b) =
      (natToStr a, '.' :: frac6Str b) :=
    takeDigits_append _ (natToStr_all_digit a) '.' (by decide) _
  have hempty : (natToStr a).isEmpty = false :=
    List.isEmpty_eq_false.mpr (natToStr_ne_nil a)
  have hfpne : (frac6Str b).isEmpty = false := by
    have := frac6Str_length hb
    apply List.isEmpty_eq_false.mpr
    intro h
    rw [h] at this
    simp at this
  rw [parseUFloat, htd]
  dsimp only
  rw [if_neg (by rw [hempty]; exact Bool.false_ne_true)]
  rw [if_pos rfl, if_neg (by rw [hfpne]; exact Bool.false_ne_true),
    if_pos (frac6Str_all_digit b), parseDigits_natToStr, parseDigits_frac6,
    frac6Str_length hb]
  norm_num

theorem round6int_nonneg {q : ℚ} (hq : 0 ≤ q) : 0 ≤ round6int q := by
  unfold round6int
  have hx : (0 : ℚ) ≤ q * 1000000 := by positivity
  have hz : (0 : ℤ) ≤ ⌊q * 1000000⌋ := Int.floor_nonneg.mpr hx
  split
  · exact hz
  · split
    · omega
    · split <;> omega

theorem round6int_nonpos {q : ℚ} (hq : q < 0) : round6int q ≤ 0 := by
  unfold round6int
  have hx : q * 1000000 < 0 := by nlinarith
  have hz : ⌊q * 1000000⌋ < 0 := by
    by_contra h
    push_neg at h
    exact absurd (Int.floor_nonneg.mp h) (not_le.mpr hx)
  split
  · omega
  · split
    · omega
    · split <;> omega

/-- Rounding to 6 decimals moves a value by at most half an ulp. -/
theorem round6_sub_abs (q : ℚ) : |round6 q - q| ≤ 1 / 2000000 := by
  have hfl : (⌊q * 1000000⌋ : ℚ) ≤ q * 1000000 := Int.floor_le _
  have hfu : q * 1000000 < ⌊q * 1000000⌋ + 1 := Int.lt_floor_add_one _
  have key : |(round6int q : ℚ) - q * 1000000| ≤ 1 / 2 := by
    unfold round6int
    split
    case isTrue h1 =>
      rw [abs_le]
      constructor <;> linarith
    case isFalse h1 =>
      push_neg at h1
      split
      case isTrue h2 =>
        rw [abs_le]
        push_cast
        constructor <;> linarith
      case isFalse h2 =>
        push_neg at h2
        have heq : q * 1000000 - ⌊q * 1000000⌋ = 1 / 2 := le_antisymm h2 h1
        split
        case isTrue h3 =>
          rw [abs_le]
          constructor <;> linarith
        case isFalse h3 =>
          rw [abs_le]
          push_cast
          constructor <;> linarith
  have hrw : round6 q - q = ((round6int q : ℚ) - q * 1000000) / 1000000 := by
    rw [round6]
    field_simp
    ring
  rw [hrw, abs_div]
  rw [show |(1000000 : ℚ)| = 1000000 by norm_num]
  rw [div_le_iff₀ (by norm_num)]
  nlinarith [key]

theorem parseFloat_fmt6 (q : ℚ) : parseFloat (fmt6 q) = some (round6 q) := by
  have hmod : (round6int q).natAbs % 1000000 < 1000000 := Nat.mod_lt _ (by norm_num)
  have hdmQ : ((((round6int q).natAbs / 1000000 : ℕ)) : ℚ) * 1000000 +
      ((((round6int q).natAbs % 1000000 : ℕ)) : ℚ) =
        (((round6int q).natAbs : ℕ) : ℚ) := by
    have hdm : (round6int q).natAbs / 1000000 * 1000000 +
        (round6int q).natAbs % 1000000 = (round6int q).natAbs := by omega
    exact_mod_cast hdm
  have hsum : (((((round6int q).natAbs / 1000000 : ℕ)) : ℚ) +
      ((((round6int q).natAbs % 1000000 : ℕ)) : ℚ) / 1000000) * 1000000 =
        (((round6int q).natAbs : ℕ) : ℚ) := by
    rw [add_mul, div_mul_cancel₀ _ (by norm_num : (1000000 : ℚ) ≠ 0)]
    exact hdmQ
  by_cases hq : q < 0
  · have hneg : round6int q ≤ 0 := round6int_nonpos hq
    have habs : ((round6int q).natAbs : ℚ) = -((round6int q : ℤ) : ℚ) := by
      rw [Int.cast_natAbs, Int.cast_abs]
      exact abs_of_nonpos (by exact_mod_cast hneg)
    rw [fmt6, if_pos hq, List.singleton_append, List.cons_append, parseFloat,
      if_pos (by rw [List.head?_cons]), List.tail_cons,
      parseUFloat_fixed _ _ hmod, Option.map_some']
    rw [round6, eq_comm, Option.some_inj,
      div_eq_iff (by norm_num : (1000000 : ℚ) ≠ 0), eq_comm, neg_mul, hsum, habs]
    ring
  · have hpos : (0 : ℤ) ≤ round6int q := round6int_nonneg (le_of_not_lt hq)
    have habs : ((round6int q).natAbs : ℚ) = ((round6int q : ℤ) : ℚ) := by
      rw [Int.cast_natAbs, Int.cast_abs]
      exact abs_of_nonneg (by exact_mod_cast hpos)
    obtain ⟨c, cs, hcs⟩ :=
      List.exists_cons_of_ne_nil (natToStr_ne_nil ((round6int q).natAbs / 1000000))
    have hcdigit : c.isDigit = true := by
      apply natToStr_all_digit ((round6int q).natAbs / 1000000)
      rw [hcs]
      exact List.mem_cons_self c cs
    rw [fmt6, if_neg hq, List.nil_append, hcs, List.cons_append, parseFloat,
      if_neg (fun h => isDigit_ne_hyphen hcdigit
        (by rw [List.head?_cons] at h; exact Option.some_inj.mp h)),
      ← List.cons_append, ← hcs, parseUFloat_fixed _ _ hmod]
    rw [round6, eq_comm, Option.some_inj, div_eq_iff (by norm_num : (1000000 : ℚ) ≠ 0),
      eq_comm, hsum, habs]

theorem isSkippedLine_data (i : ℕ) (toks : List (List Char)) :
    isSkippedLine (natToStr i :: toks) = false := by
  show startsWithHash (natToStr i) = false
  obtain ⟨c, cs, hcs⟩ := List.exists_cons_of_ne_nil (natToStr_ne_nil i)
  rw [hcs]
  show (c == '#') = false
  apply isDigit_not_hash
  apply natToStr_all_digit i
  rw [hcs]
  exact List.mem_cons_self c cs

theorem parse_exportLines (ts : List (List ℚ)) :
    ∀ i : ℕ, parse_ascii_trf (exportLines i ts) =
      some (ts.map fun t =>
        [round6 (t.getD 0 0), round6 (t.getD 1 0), round6 (t.getD 2 0)]) := by
  induction ts with
  | nil => intro i; rfl
  | cons t ts ih =>
    intro i
    rw [exportLines, parse_ascii_trf,
      if_neg (Bool.eq_false_iff.mp (isSkippedLine_data i _)), if_pos (by simp)]
    show (match parseFloat (fmt6 (t.getD 0 0)), parseFloat (fmt6 (t.getD 1 0)),
        parseFloat (fmt6 (t.getD 2 0)) with
      | some a, some b, some c =>
        (parse_ascii_trf (exportLines (i + 1) ts)).map (fun l => [a, b, c] :: l)
      | _, _, _ => none) = _
    rw [parseFloat_fmt6, parseFloat_fmt6, parseFloat_fmt6]
    rw [ih (i + 1)]
    rfl

/-- C9 confirmed: exporting any transform sequence whose elements have at
least 3 fields and re-parsing the export yields a sequence of the same
length, in the same order, whose values are the originals rounded to 6
decimals — and 6-decimal rounding moves each value by at most `1/2 · 10⁻⁶`. -/
theorem C9_roundtrip (ts : List (List ℚ)) (hts : ∀ t ∈ ts, 3 ≤ t.length) :
    parse_ascii_trf (export_to_ascii ts) =
      some (ts.map fun t =>
        [round6 (t.getD 0 0), round6 (t.getD 1 0), round6 (t.getD 2 0)]) ∧
    ∀ q : ℚ, |round6 q - q| ≤ 1 / 2000000 := by
  refine ⟨?_, fun q => round6_sub_abs q⟩
  have h1 : isSkippedLine [['#'], "VidStab".data, "transform".data, "data".data] =
      true := rfl
  have h2 : isSkippedLine [['#'], "Frame".data, "count:".data, natToStr ts.length] =
      true := rfl
  rw [export_to_ascii, parse_ascii_trf, if_pos h1, parse_ascii_trf, if_pos h2]
  exact parse_exportLines ts 0

/-- Witness for C9 on the concrete sequence `[[1/2, -3/4, 5]]`. -/
theorem C9_witness :
    (∀ t ∈ ([[1 / 2, -3 / 4, 5]] : List (List ℚ)), 3 ≤ t.length) ∧
    parse_ascii_trf (export_to_ascii [[1 / 2, -3 / 4, 5]]) =
      some (([[1 / 2, -3 / 4, 5]] : List (List ℚ)).map fun t =>
        [round6 (t.getD 0 0), round6 (t.getD 1 0), round6 (t.getD 2 0)]) := by
  have h : ∀ t ∈ ([[1 / 2, -3 / 4, 5]] : List (List ℚ)), 3 ≤ t.length := by
    intro t ht
    simp at ht
    subst ht
    simp
  exact ⟨h, (C9_roundtrip _ h).1⟩

end TRF
